import Mathlib

/-!
Shallow embedding of the kustomer daemon (Kopano-dev/kustomer) in Lean 4.

The definitions below are translated from the Go sources:
* `license/license.go` — claim model (`Product`, `Claims`).
* `jwksfetcher.go` (src/unnamed/part_006) — `JWKSFetcher.Update`.
* `licenses.go` (src/unnamed/part_005) — `LicensesLoader.scanFolderForLicenseClaims`
  and `LicensesLoader.sortAndDeduplicate`.
* `server/config.go` — `NewServer`, the JWKS goroutine's offline counter update,
  and the license loading goroutine (`f`) of `Server.Serve`.
* `server/handlers.go` (src/unnamed/part_001) — `ReloadHandler`, `ClaimsHandler`,
  `ClaimsKopanoProductsHandler`.

Go maps (`map[string]T`) are modelled as association lists with
lookup-of-first-binding and insert-that-replaces; Go map iteration order is
a determinization (the iterations embedded here are order-independent in the
properties proved). Cryptographic primitives of the go-jose library
(signature verification, certificate-chain building) are opaque to the daemon
code; they are modelled by outcome fields carried by the parsed token.
-/

namespace Kustomer

/-! ## Association-list model of Go string-keyed maps -/

/-- Lookup of a key in an association list: first binding wins
(association lists built with `ainsert` have unique keys, like Go maps). -/
def alookup (m : List (String × α)) (k : String) : Option α :=
  (m.find? (fun kv => kv.1 == k)).map (fun kv => kv.2)

/-- Insert (or replace) a binding, keeping keys unique. -/
def ainsert (m : List (String × α)) (k : String) (v : α) : List (String × α) :=
  (k, v) :: m.filter (fun kv => ¬ (kv.1 = k))

theorem alookup_nil (k : String) : alookup ([] : List (String × α)) k = none := rfl

theorem alookup_cons (kv : String × α) (m : List (String × α)) (k : String) :
    alookup (kv :: m) k = if kv.1 = k then some kv.2 else alookup m k := by
  by_cases h : kv.1 = k
  · simp [alookup, List.find?, h]
  · have hb : (kv.1 == k) = false := beq_eq_false_iff_ne.mpr h
    simp [alookup, List.find?, hb, h]

theorem alookup_filter_key (m : List (String × α)) (p : String → Bool) (k : String) :
    alookup (m.filter (fun kv => p kv.1)) k
      = if p k then alookup m k else none := by
  induction m with
  | nil => cases hpk : p k <;> simp [alookup_nil, hpk]
  | cons kv m ih =>
    by_cases hp : p kv.1 = true
    · have hf : List.filter (fun kv => p kv.1) (kv :: m)
          = kv :: List.filter (fun kv => p kv.1) m := by
        simp [List.filter_cons, hp]
      rw [hf, alookup_cons, alookup_cons]
      by_cases hk : kv.1 = k
      · subst hk; simp [hp]
      · simp only [hk, if_false]; exact ih
    · have hf : List.filter (fun kv => p kv.1) (kv :: m)
          = List.filter (fun kv => p kv.1) m := by
        simp [List.filter_cons, hp]
      rw [hf]
      by_cases hk : kv.1 = k
      · subst hk; rw [ih, if_neg hp]
        simp [hp]
      · rw [ih, alookup_cons, if_neg hk]

theorem alookup_ainsert (m : List (String × α)) (k k' : String) (v : α) :
    alookup (ainsert m k v) k' = if k = k' then some v else alookup m k' := by
  unfold ainsert
  rw [alookup_cons]
  by_cases h : k = k'
  · simp [h]
  · have h' : ¬ k' = k := fun hc => h hc.symm
    have := alookup_filter_key m (fun s => decide ¬ (s = k)) k'
    simp only [decide_not] at this
    simp [h, h', this]

/-! ## Claim values

Go carries license claim values as `interface\x7b\x7d`, populated by JSON
decoding (`nil`, `int64`/`float64` numbers, `string`, `bool`,
`[]interface\x7b\x7d`) or programmatically (in particular `[]string`, the only
dynamic type accepted for the `exclusive` claim). The constructors mirror
those dynamic types; `vStrArr` is kept distinct from `vArr` because Go type
assertions distinguish `[]string` from `[]interface\x7b\x7d`. -/

inductive CValue where
  | vNull : CValue
  | vInt : Int → CValue
  | vFloat : Float → CValue
  | vStr : String → CValue
  | vBool : Bool → CValue
  | vArr : List CValue → CValue
  | vStrArr : List String → CValue
deriving Inhabited

/-- Equality of claim values, modelling Go interface equality (`==`/`!=`)
and `cmp.Equal` on the value domain above; floats compare by IEEE equality
as in Go. -/
def cvalBeq : CValue → CValue → Bool
  | .vNull, .vNull => true
  | .vInt a, .vInt b => a == b
  | .vFloat a, .vFloat b => a == b
  | .vStr a, .vStr b => a == b
  | .vBool a, .vBool b => a == b
  | .vArr a, .vArr b => go a b
  | .vStrArr a, .vStrArr b => a == b
  | _, _ => false
where go : List CValue → List CValue → Bool
  | [], [] => true
  | a :: as, b :: bs => cvalBeq a b && go as bs
  | _, _ => false

/-- Go type assertion `value.([]string)` used on the `exclusive` claim. -/
def asStringArr : CValue → Option (List String)
  | .vStrArr xs => some xs
  | _ => none

/-! ## License claim model (`license/license.go`) -/

/-- license.ExclusiveClaim -/
def ExclusiveClaim : String := "exclusive"

/-- A Product holds the license information for an individual Kopano product
(`license.Product`): `lid` plus the open `Unknown` mapping. -/
structure Product where
  licenseID : String := ""
  unknown : List (String × CValue) := []
deriving Inhabited

/-- Embedded `jwt.Claims` (go-jose): the standard fields the daemon reads.
`NumericDate` values are unix seconds; a nil `*jwt.NumericDate` is `none`. -/
structure JWTCore where
  issuer : String := ""
  subject : String := ""
  id : String := ""
  issuedAt : Option Int := none
  notBefore : Option Int := none
  expiry : Option Int := none
deriving Inhabited

/-- license.Claims: the embedded jwt.Claims plus the kustomer fields. -/
structure Claims where
  core : JWTCore := {}
  licenseFileName : String := ""
  licenseID : String := ""
  licenseFileID : String := ""
  displayName : String := ""
  supportIdentificationNumber : String := ""
  kopanoProducts : List (String × Product) := []
deriving Inhabited

/-- Unix seconds of `(*jwt.NumericDate).Time()`: a nil pointer yields the Go
zero `time.Time` (January 1, year 1 UTC), whose unix value is -62135596800. -/
def numericDateTime : Option Int → Int
  | none => -62135596800
  | some n => n

/-- Sort key used by `sortAndDeduplicate`: the instant of the issued-at claim. -/
def iatKey (c : Claims) : Int := numericDateTime c.core.issuedAt

/-! ## Key-set fetcher (`JWKSFetcher`, src/unnamed/part_006) -/

/-- A JSON web key; the key material itself is opaque to the daemon and
represented by a numeric handle. -/
structure JWK where
  kid : String := ""
  key : Nat := 0
deriving Inhabited, DecidableEq

/-- jose.JSONWebKeySet. -/
structure KeySet where
  keys : List JWK := []
deriving Inhabited, DecidableEq

/-- `JSONWebKeySet.Key(kid)` of go-jose: all keys whose key id matches. -/
def keySetKey (ks : KeySet) (kid : String) : List JWK :=
  ks.keys.filter (fun k => k.kid == kid)

/-- URI selection of `JWKSFetcher.Update`:
`uriIndex = attempt - 1; if uriIndex >= len(jwksf.URIs) \x7b uriIndex = 0 \x7d`. -/
def selectURIIndex (attempt numURIs : Nat) : Nat :=
  let uriIndex := attempt - 1
  if uriIndex ≥ numURIs then 0 else uriIndex

/-- Mutable fields of `JWKSFetcher` (`jwks`, `etag`, `offline`). -/
structure FetcherState where
  jwks : Option KeySet := none
  etag : String := ""
  offline : Bool := false
deriving Inhabited, DecidableEq

/-- Outcome of one HTTP exchange of `JWKSFetcher.Update`, as distinguished by
the response handling code. -/
inductive AttemptResult where
  | notModified : AttemptResult
  | okNew : KeySet → String → AttemptResult
  | okBadBody : String → AttemptResult
  | httpError : AttemptResult
deriving Inhabited, DecidableEq

/-- The inner request closure of `JWKSFetcher.Update`: returns
`(jwks, etag, err?)`. On 304 it returns `(nil, etag, nil)` with the etag it
was given; on 200 it returns the parsed set and the response ETag header;
on a decode failure or unexpected status it returns an error. -/
def updateAttemptInner (st : FetcherState) (r : AttemptResult) :
    Option KeySet × String × Bool :=
  match r with
  | .notModified => (none, st.etag, false)
  | .okNew ks etag => (some ks, etag, false)
  | .okBadBody etag => (none, etag, true)
  | .httpError => (none, "", true)

/-- Integration of one attempt result into the fetcher state
(`if err == nil \x7b jwksf.offline = false; if jwks != nil \x7b ... \x7d;
return jwks, nil \x7d` / `jwksf.offline = true`).
Returns the new state, the value `Update` returns on the no-error path, and
whether the attempt erred (leading to retry or failure). -/
def applyAttempt (st : FetcherState) (r : AttemptResult) :
    FetcherState × Option KeySet × Bool :=
  let (jwks, etag, isErr) := updateAttemptInner st r
  if isErr then
    ({ st with offline := true }, none, true)
  else
    match jwks with
    | some ks => ({ st with offline := false, jwks := some ks, etag := etag }, some ks, false)
    | none => ({ st with offline := false }, none, false)

/-- Server-side integration of a finished `Update` call
(`server/config.go` lines 303-313): the stored key set is replaced and a
trigger is sent to the license scanner only when no error occurred and a
non-nil key set was returned (and the loop is past its first iteration). -/
def integrateUpdate (serverJwks : Option KeySet) (returned : Option KeySet)
    (isErr started : Bool) : Option KeySet × Bool :=
  if isErr then (serverJwks, false)
  else
    match returned with
    | some ks => (some ks, started)
    | none => (serverJwks, false)

/-! ## Offline counter (`server/config.go`) -/

/-- `offlineThreshold uint = 3`. -/
def offlineThreshold : Nat := 3

/-- `NewServer` initializes the counter to the threshold
(`offline: offlineThreshold`). -/
def newServerOfflineCounter : Nat := offlineThreshold

/-- Counter update after each `fetcher.Update` call (config.go lines 314-322):
increment capped at the threshold while the fetcher reports offline, reset to
zero otherwise. -/
def nextOfflineCounter (current : Nat) (fetcherOffline : Bool) : Nat :=
  if fetcherOffline then
    let o := current + 1
    if o > offlineThreshold then offlineThreshold else o
  else 0

/-- The offline flag handed to the license scanner
(config.go line 421: `offline = s.offline > 0`). -/
def scannerOfflineFlag (counter : Nat) : Bool := counter > 0

/-- The offline flag reported by the products endpoint
(handlers, `Offline: offline >= offlineThreshold`). -/
def productsOfflineFlag (counter : Nat) : Bool := counter ≥ offlineThreshold

/-- Folding a sequence of fetch outcomes (`true` = fetcher reported offline)
into the counter, starting from a given counter value. -/
def runFetchOutcomes (start : Nat) (outcomes : List Bool) : Nat :=
  outcomes.foldl nextOfflineCounter start

/-- Length of the trailing run of offline reports. -/
def trailingOfflineCount (outcomes : List Bool) : Nat :=
  (outcomes.reverse.takeWhile id).length

/-! ## Reload handler (src/unnamed/part_001, `Server.ReloadHandler`) -/

/-- Linux socket peer credentials (`syscall.Ucred`). -/
structure Ucred where
  pid : Int := 0
  uid : Nat := 0
  gid : Nat := 0
deriving Inhabited, DecidableEq

/-- The request data `ReloadHandler` inspects before touching the reload
channel. -/
structure ReloadRequest where
  parseFormOk : Bool := true
  method : String := "POST"
  ucred : Option Ucred := none
deriving Inhabited, DecidableEq

/-- Result of the admission portion of `ReloadHandler`: either an immediate
response (status, body) without touching `s.reloadCh`, or dispatch to the
coordinator (the handler then sends a callback channel into `s.reloadCh`). -/
inductive ReloadAdmission where
  | respond : Nat → String → ReloadAdmission
  | dispatch : ReloadAdmission
deriving Inhabited, DecidableEq

/-- The guard sequence of `ReloadHandler`: form parse, method check,
credential presence, root check — in source order. -/
def reloadAdmission (r : ReloadRequest) : ReloadAdmission :=
  if ¬ r.parseFormOk then .respond 400 "failed to parse request form data"
  else if r.method ≠ "POST" then .respond 400 "POST request required"
  else
    match r.ucred with
    | none => .respond 500 "no unix credentials in request"
    | some u =>
      if u.uid ≠ 0 then .respond 403 "reload request must be sent as root"
      else .dispatch

/-! ## License scanner (`LicensesLoader.scanFolderForLicenseClaims`,
src/unnamed/part_005)

The per-file pipeline is embedded with the cryptographic primitives of
go-jose represented by outcome fields on the parsed token: `certChains` is
the result of `headers.Certificates(x509.VerifyOptions\x7bRoots: CertPool\x7d)`
for the configured pool, `claimsVerified k` the result of
`token.Claims(key, &c)` for key handle `k`, and `claimsUnverified` the
result of `token.UnsafeClaimsWithoutVerification(&c)`. -/

/-- x509 certificate; only the public key is consumed by the scanner. -/
structure Cert where
  publicKey : Nat := 0
deriving Inhabited, DecidableEq

/-- jose.Header of the single token header: algorithm and key id. -/
structure TokenHeader where
  alg : String := ""
  kid : String := ""
deriving Inhabited, DecidableEq

/-- The JSON claim fields decoded from a license token payload. -/
structure ClaimsPayload where
  core : JWTCore := {}
  licenseFileID : String := ""
  displayName : String := ""
  supportIdentificationNumber : String := ""
  kopanoProducts : List (String × Product) := []
deriving Inhabited

/-- A parsed signed token (`jwt.ParseSigned` result) with the outcomes of
the opaque go-jose operations the scanner applies to it. -/
structure TokenData where
  headers : List TokenHeader := []
  certChains : Option (List (List Cert)) := none
  claimsVerified : Nat → Option ClaimsPayload := fun _ => none
  claimsUnverified : Option ClaimsPayload := none

/-- One directory entry handed to the per-file closure: name, read outcome,
parse outcome. -/
structure LicenseFile where
  fn : String := ""
  readOk : Bool := true
  parsed : Option TokenData := none

/-- Parameters of `LicensesLoader` consumed by the per-file pipeline
(`CertPool != nil`, `JWKS`, `Offline`). -/
structure LicensesLoader where
  certPoolConfigured : Bool := false
  jwks : Option KeySet := none
  offline : Bool := false

/-- DefaultLicenseLeeway = 24 * time.Hour, in seconds. -/
def defaultLicenseLeeway : Int := 86400

/-- The algorithm whitelist switch: EdDSA, ES256, ES384, ES512. -/
def allowedAlg (alg : String) : Bool :=
  alg = "EdDSA" ∨ alg = "ES256" ∨ alg = "ES384" ∨ alg = "ES512"

/-- go-jose `Claims.ValidateWithLeeway(jwt.Expected\x7bTime: now\x7d, leeway)`:
the token is rejected when `now + leeway` is before `nbf`, or `now - leeway`
is after `exp`; absent fields are not checked. -/
def validateWithLeeway (c : JWTCore) (now leeway : Int) : Bool :=
  (match c.notBefore with
   | none => true
   | some nbf => decide (¬ (now + leeway < nbf))) &&
  (match c.expiry with
   | none => true
   | some e => decide (¬ (now - leeway > e)))

/-- Go strings.TrimSpace, modelled over the character list (kernel-reducible,
unlike String.trim). -/
def trimSpace (s : String) : String :=
  String.mk (((s.data.dropWhile Char.isWhitespace).reverse.dropWhile
    Char.isWhitespace).reverse)

/-- Result of processing one file. -/
inductive FileOutcome where
  | panicked : FileOutcome
  | skipped : String → FileOutcome
  | accepted : Claims → FileOutcome

/-- Public key extraction from the verified chains:
`if len(chain) > 0 && len(chain[0]) > 0 \x7b key = chain[0][0].PublicKey \x7d`. -/
def chainLeafKey : List (List Cert) → Option Nat
  | (c :: _) :: _ => some c.publicKey
  | _ => none

/-- Key selection of the scanner (part_005 lines 121-176). A `.error`
carries the early exit of the per-file closure; `.ok` carries the selected
key (`none` = proceed without a key, possible only in unsafe mode).

When the key set is non-nil and holds no key for the token's key id, the
non-unsafe path skips; otherwise the code executes `key = &keys[0]`, which
panics on the empty slice — this happens exactly in unsafe mode with an
unmatched key id. -/
def scanKeySelect (ll : LicensesLoader) (token : TokenData) (kid : String)
    (unverified : Bool) : Except FileOutcome (Option Nat) :=
  let viaJwks : Except FileOutcome (Option Nat) :=
    match ll.jwks with
    | some ks =>
      let keys := keySetKey ks kid
      if keys.length = 0 ∧ ¬ unverified then
        .error (.skipped "license with unknown kid, ignored")
      else
        match keys with
        | k :: _ => .ok (some k.key)
        | [] => .error .panicked
    | none => .ok none
  match viaJwks with
  | .error o => .error o
  | .ok (some k) => .ok (some k)
  | .ok none =>
    if ¬ ll.offline ∧ ¬ unverified then
      .error (.skipped "license found but there is no matching online key, skipped")
    else
      let fromPool : Except FileOutcome (Option Nat) :=
        if ll.certPoolConfigured then
          match token.certChains with
          | none => .error (.skipped "license certificate check failed, skipped")
          | some chains => .ok (chainLeafKey chains)
        else .ok none
      match fromPool with
      | .error o => .error o
      | .ok key =>
        if key.isNone ∧ ¬ unverified then
          .error (.skipped "license found but there is no matching offline key, skipped")
        else .ok key

/-- The per-file closure of `scanFolderForLicenseClaims`; `unverified` is the
`unsafe` parameter distinguishing `ScanFolder` (false) from the
developer-tooling entry point `UnsafeScanFolderWithoutVerification` (true). -/
def scanLicenseFile (ll : LicensesLoader) (file : LicenseFile) (now : Int)
    (unverified : Bool) : FileOutcome :=
  if ¬ file.readOk then .skipped "error while reading license file"
  else
    match file.parsed with
    | none => .skipped "error while parsing license file"
    | some token =>
      match token.headers with
      | [h] =>
        if allowedAlg h.alg then
          match scanKeySelect ll token h.kid unverified with
          | .error o => o
          | .ok key =>
            let payload? :=
              if unverified ∧ key.isNone then token.claimsUnverified
              else
                match key with
                | some k => token.claimsVerified k
                | none => none
            match payload? with
            | none => .skipped "error while parsing license file claims"
            | some payload =>
              if ¬ validateWithLeeway payload.core now defaultLicenseLeeway then
                .skipped "license is not valid, skipped"
              else if trimSpace payload.core.subject = "" then
                .skipped "license found but its sub claim is empty, skipped"
              else
                .accepted
                  { core := payload.core
                    licenseFileName := file.fn
                    licenseID :=
                      if payload.core.id ≠ "" then payload.core.id else file.fn
                    licenseFileID := payload.licenseFileID
                    displayName := payload.displayName
                    supportIdentificationNumber :=
                      payload.supportIdentificationNumber
                    kopanoProducts := payload.kopanoProducts }
        else .skipped "license with unknown alg, ignored"
      | _ => .skipped "license with multiple headers, ignored"

/-! ## Per-product aggregation
(`Server.ClaimsKopanoProductsHandler`, src/unnamed/part_001) -/

/-- api.ClaimsKopanoProductsResponseProduct; zero values are those of the
entry initializer in the handler. -/
structure ProductEntry where
  ok : Bool := true
  claims : List (String × CValue) := []
  expiry : List (Option Int) := []
  displayName : List String := []
  supportIdentificationNumber : List String := []
  exclusiveClaims : List (String × CValue) := []

/-- The fresh entry created when a product name is first seen. -/
def emptyProductEntry : ProductEntry := {}

/-- appendIfMissingS of `server/utils.go` (src/unnamed/part_000). -/
def appendIfMissingS (slice : List String) (s : String) : List String :=
  if slice.contains s then slice else slice ++ [s]

/-- Go `int64` addition wraps in two's complement. -/
def int64Wrap (z : Int) : Int := (z + 2 ^ 63) % 2 ^ 64 - 2 ^ 63

/-- One iteration of the exclusive-validation loop (part_001 lines 231-249)
over accumulator (aggregate flag, currentExclusiveClaims). A pinned key whose
incoming value differs clears the aggregate flag; an unpinned key listed in
currentExclusiveClaims records its incoming value there. -/
def validateClaimStep (entry : ProductEntry) (acc : Bool × List (String × CValue))
    (k : String) (nextValue : CValue) : Bool × List (String × CValue) :=
  if k = ExclusiveClaim then acc
  else
    match alookup entry.exclusiveClaims k with
    | some exclusiveValue =>
      if cvalBeq nextValue exclusiveValue then acc else (false, acc.2)
    | none =>
      match alookup acc.2 k with
      | some _ => (acc.1, ainsert acc.2 k nextValue)
      | none => acc

/-- One iteration of the claim-merge loop (part_001 lines 254-315), keyed on
the reflect kind of the incoming value: int64 kinds sum (or replace on type
mismatch), float kinds sum, `[]interface` unions preserving first-appearance
order (the cache is built from the existing value only, as in the source),
other slices replace, and all remaining kinds replace unless `cmp.Equal`. -/
def mergeClaimStep (cs : List (String × CValue)) (k : String) (nextValue : CValue) :
    List (String × CValue) :=
  if k = ExclusiveClaim then cs
  else
    match alookup cs k with
    | none => ainsert cs k nextValue
    | some haveValue =>
      match nextValue with
      | .vInt n =>
        match haveValue with
        | .vInt h => ainsert cs k (.vInt (int64Wrap (h + n)))
        | _ => ainsert cs k (.vInt n)
      | .vFloat x =>
        match haveValue with
        | .vFloat h => ainsert cs k (.vFloat (h + x))
        | _ => ainsert cs k (.vFloat x)
      | .vArr xs =>
        match haveValue with
        | .vArr hs =>
          ainsert cs k (.vArr (hs ++ xs.filter (fun v => ¬ hs.any (fun w => cvalBeq w v))))
        | _ => ainsert cs k (.vArr xs)
      | .vStrArr xs => ainsert cs k (.vStrArr xs)
      | _ =>
        if cvalBeq nextValue haveValue then cs else ainsert cs k nextValue

/-- Final pinning (part_001 lines 323-328): non-nil values recorded in
currentExclusiveClaims become pinned exclusive claims. -/
def pinExclusiveStep (m : List (String × CValue)) (kv : String × CValue) :
    List (String × CValue) :=
  match kv.2 with
  | .vNull => m
  | v => ainsert m kv.1 v

/-- Processing of one product entry of one license claim by
`ClaimsKopanoProductsHandler` (the body of the inner product loop), acting on
the entry already present in (or freshly inserted into) the products map.
The skip paths (`continue` in the source) leave the entry unchanged. -/
def processProduct (claim : Claims) (product : Product) (entry : ProductEntry) :
    ProductEntry :=
  let currentExclusive0? : Option (List (String × CValue)) :=
    match alookup product.unknown ExclusiveClaim with
    | some ev =>
      match asStringArr ev with
      | none => none
      | some exs => some (exs.map (fun k => (k, CValue.vNull)))
    | none => some []
  match currentExclusive0? with
  | none => entry
  | some cur0 =>
    let st := product.unknown.foldl
      (fun acc kv => validateClaimStep entry acc kv.1 kv.2) (true, cur0)
    if ¬ st.1 then entry
    else
      { entry with
        claims := product.unknown.foldl
          (fun cs kv => mergeClaimStep cs kv.1 kv.2) entry.claims
        expiry := entry.expiry ++ [claim.core.expiry]
        displayName :=
          if claim.displayName ≠ "" then
            appendIfMissingS entry.displayName claim.displayName
          else entry.displayName
        supportIdentificationNumber :=
          if claim.supportIdentificationNumber ≠ "" then
            appendIfMissingS entry.supportIdentificationNumber
              claim.supportIdentificationNumber
          else entry.supportIdentificationNumber
        exclusiveClaims := st.2.foldl pinExclusiveStep entry.exclusiveClaims }

/-- Product name filter: requests may carry repeated `product=` parameters. -/
def matchesFilter (filter : Option (List String)) (name : String) : Bool :=
  match filter with
  | none => true
  | some names => names.contains name

/-- Processing of all products of one license claim: get-or-create the
entry, process, store. -/
def processClaimProducts (filter : Option (List String))
    (products : List (String × ProductEntry)) (claim : Claims) :
    List (String × ProductEntry) :=
  claim.kopanoProducts.foldl
    (fun ps nv =>
      if matchesFilter filter nv.1 then
        let entry := (alookup ps nv.1).getD emptyProductEntry
        ainsert ps nv.1 (processProduct claim nv.2 entry)
      else ps)
    products

/-- The aggregation walk of `ClaimsKopanoProductsHandler` over the committed
claims (sorted oldest to newest). -/
def claimsKopanoProducts (claims : List Claims) (filter : Option (List String)) :
    List (String × ProductEntry) :=
  claims.foldl (processClaimProducts filter) []

/-! ## Read-side handlers (src/unnamed/part_001) -/

/-- Fields of `Server` read by the claims handlers; `claims` is `none` for
the never-committed initial nil slice (which serializes as JSON null). -/
structure ServerClaimsState where
  claims : Option (List Claims) := none
  trusted : Bool := false
  offline : Nat := newServerOfflineCounter

/-- The value of `s.claims` set by `NewServer` (zero value: nil slice). -/
def initialServerClaims : Option (List Claims) := none

/-- Outcome of the select over the ready channel, the request context and
the 30-second timer in `ClaimsKopanoProductsHandler`. -/
inductive ReadyWaitOutcome where
  | ready : ReadyWaitOutcome
  | ctxDone : ReadyWaitOutcome
  | timeout : ReadyWaitOutcome
deriving Inhabited, DecidableEq

/-- Responses produced by the claims handlers. -/
inductive HandlerResponse where
  | errorText : Nat → String → HandlerResponse
  | jsonClaims : Nat → Option (List Claims) → HandlerResponse
  | jsonProducts : Nat → Bool → Bool → List (String × ProductEntry) → HandlerResponse

/-- `Server.ClaimsHandler`: parses the form then serves `s.claims` under the
read lock. It consults neither the ready channel nor any timer: its result is
a function of the request and the claims state alone. -/
def claimsHandler (parseFormOk : Bool) (st : ServerClaimsState) : HandlerResponse :=
  if ¬ parseFormOk then .errorText 400 "failed to parse request form data"
  else .jsonClaims 200 st.claims

/-- `Server.ClaimsKopanoProductsHandler`: parses the form, waits up to 30
seconds on the ready channel (503 on timeout, no response when the request
context is cancelled), then aggregates under the read lock. `none` models a
request that ended without a response being written. -/
def claimsKopanoProductsHandler (parseFormOk : Bool) (filter : Option (List String))
    (readyWait : ReadyWaitOutcome) (st : ServerClaimsState) : Option HandlerResponse :=
  if ¬ parseFormOk then some (.errorText 400 "failed to parse request form data")
  else
    match readyWait with
    | .ctxDone => none
    | .timeout => some (.errorText 503 "ready timeout reached")
    | .ready =>
      some (.jsonProducts 200 st.trusted (productsOfflineFlag st.offline)
        (claimsKopanoProducts (st.claims.getD []) filter))

/-! ## Sort and deduplicate (`LicensesLoader.sortAndDeduplicate`,
src/unnamed/part_005 lines 244-311) -/

/-- `sort.SliceStable(claims, less)` with
`less i j := claims[i].IssuedAt.Time().After(claims[j].IssuedAt.Time())`:
a stable sort by issued-at descending. A stable sort by `less` is the stable
merge sort by `le a b := !(less b a)`. -/
def sortClaimsByIatDesc (claims : List Claims) : List Claims :=
  claims.mergeSort (fun a b => decide (iatKey b ≤ iatKey a))

/-- Accumulator of the deduplication loop: the `all` and `added` maps, the
activate-history map, the seen file-id set and the result slice (built by
prepending, which reverses the newest-first ordering). -/
structure DedupState where
  all : List (String × Claims) := []
  added : List (String × Bool) := []
  history : List (String × Claims) := []
  seen : List String := []
  result : List Claims := []

/-- One iteration of the deduplication loop (part_005 lines 262-288). -/
def dedupStep (st : DedupState) (c : Claims) : DedupState :=
  let all := ainsert st.all c.licenseID c
  let lidKnown := (alookup st.history c.licenseID).isSome
  let added := ainsert st.added c.licenseID (!lidKnown)
  let history :=
    if lidKnown then st.history else ainsert st.history c.licenseID c
  if ¬ st.seen.contains c.licenseFileID then
    { all := all, added := added, history := history
      seen :=
        if c.licenseFileID ≠ "" then c.licenseFileID :: st.seen else st.seen
      result := c :: st.result }
  else
    { all := all, added := added, history := history
      seen := st.seen, result := st.result }

/-- Return value of `sortAndDeduplicate` together with its observable
effects: the updated activate-history map and the identifiers for which the
OnNew / OnRemove hooks fired (both hooks set `changed = true` in the license
loading goroutine of `Server.Serve`). -/
structure SDResult where
  claims : List Claims
  history : List (String × Claims)
  newFired : List String
  removedFired : List String

/-- `LicensesLoader.sortAndDeduplicate`: stable sort newest-first, dedup by
file id (empty file ids always kept), reverse into oldest-first order by
prepending; then fire OnRemove for history entries whose key was not seen
this round (removing them from the history) and OnNew for identifiers whose
final `added` value is true. -/
def sortAndDeduplicate (history0 : List (String × Claims)) (claims : List Claims) :
    SDResult :=
  let sorted := sortClaimsByIatDesc claims
  let st := sorted.foldl dedupStep { history := history0 }
  let removed := st.history.filter (fun kv => (alookup st.added kv.1).isNone)
  let historyF := st.history.filter (fun kv => (alookup st.added kv.1).isSome)
  { claims := st.result
    history := historyF
    newFired := (st.added.filter (fun kv => kv.2 = true)).map (fun kv => kv.1)
    removedFired := removed.map (fun kv => kv.1) }

/-! ## The rebuild `f` of the license loading goroutine
(`Server.Serve`, server/config.go lines 408-510) -/

/-- Coordinator state threaded through invocations of `f`: the
activate-history map, `lastSub`, `first`, the committed claims and the number
of commits (update-channel closures) performed. -/
structure CoordState where
  activateHistory : List (String × Claims) := []
  lastSub : String := ""
  first : Bool := true
  claims : List Claims := []
  commits : Nat := 0

/-- The synthetic claims entry prepended for a globally configured sub. -/
def syntheticSubClaims (sub : String) : Claims := { core := { subject := sub } }

/-- The claims list a run of `f` assembles: the deduplicated scan output,
with the synthetic entry for a configured global sub prepended. -/
def rebuildClaimsList (globalSub : String) (h0 : List (String × Claims))
    (scanned : List Claims) : List Claims :=
  if globalSub ≠ "" then
    syntheticSubClaims globalSub :: (sortAndDeduplicate h0 scanned).claims
  else (sortAndDeduplicate h0 scanned).claims

/-- The candidate sub: the subject of the first assembled entry, or empty
(`if len(claims) > 0 \x7b sub = claims[0].Claims.Subject \x7d`). -/
def rebuildSub (globalSub : String) (h0 : List (String × Claims))
    (scanned : List Claims) : String :=
  match rebuildClaimsList globalSub h0 scanned with
  | [] => ""
  | c :: _ => c.core.subject

/-- One run of `f` on the list of claims produced by the folder walk
(`scanned` is the pre-deduplication scan output, which for an unchanged
directory and key set is identical across runs; the load-history map only
suppresses logging and does not influence it). The run deduplicates, derives
`changed` from the OnRemove / OnNew hooks, prepends the configured sub,
computes the candidate sub and either returns without committing or swaps
the claims and closes the update channel (counted by `commits`). -/
def runRebuild (globalSub : String) (scanned : List Claims) (st : CoordState) :
    CoordState :=
  let sd := sortAndDeduplicate st.activateHistory scanned
  let changed := ¬ sd.removedFired.isEmpty ∨ ¬ sd.newFired.isEmpty
  let sub := rebuildSub globalSub st.activateHistory scanned
  if ¬ st.first ∧ sub = st.lastSub ∧ ¬ changed then
    { st with activateHistory := sd.history }
  else
    { activateHistory := sd.history, lastSub := sub, first := false
      claims := rebuildClaimsList globalSub st.activateHistory scanned
      commits := st.commits + 1 }

/-! ## Offline counter lemmas -/

theorem nextOfflineCounter_true_min (t : Nat) :
    nextOfflineCounter (min offlineThreshold t) true = min offlineThreshold (t + 1) := by
  unfold nextOfflineCounter offlineThreshold
  by_cases h : min 3 t + 1 > 3
  · rw [if_pos rfl, if_pos h]; omega
  · rw [if_pos rfl, if_neg h]; omega

theorem runFetchOutcomes_eq_min (outcomes : List Bool) :
    runFetchOutcomes 0 outcomes = min offlineThreshold (trailingOfflineCount outcomes) := by
  induction outcomes using List.reverseRecOn with
  | nil => rfl
  | append_singleton l b ih =>
    have hrev : (l ++ [b]).reverse = b :: l.reverse := by simp
    unfold runFetchOutcomes at ih ⊢
    rw [List.foldl_append]
    simp only [List.foldl_cons, List.foldl_nil]
    rw [ih]
    unfold trailingOfflineCount
    rw [hrev]
    cases b with
    | false => simp [nextOfflineCounter, List.takeWhile_cons]
    | true =>
      rw [List.takeWhile_cons]
      simp only [id, if_pos rfl, List.length_cons]
      exact nextOfflineCounter_true_min _

/-! ## Claim theorems -/

/-- C1, counterexample: the claim states that the offline flag used by the
license scanner is true iff the counter is at least the threshold (3). After
a single offline report from counter 0 the counter is 1; the scanner flag
(`s.offline > 0`) is already true while the externally reported flag
(`offline >= offlineThreshold`) is still false, so the two flags disagree
and the scanner flag does not follow the threshold rule. -/
theorem offlineCounter_one_scanner_vs_products :
    nextOfflineCounter 0 true = 1 ∧
    scannerOfflineFlag 1 = true ∧
    productsOfflineFlag 1 = false := by decide

/-- C1, amended: the flag reported externally by the products endpoint is
`counter ≥ threshold`, equivalently (starting from any successful refresh,
which resets the counter to 0) the last ≥ 3 fetch attempts all reported
offline; the flag used by the scanner is `counter > 0`, equivalently the
most recent fetch attempt reported offline; the counter increments capped at
the threshold on each offline report and resets to zero on success. -/
theorem offline_flags_characterization (outcomes : List Bool) :
    (productsOfflineFlag (runFetchOutcomes 0 outcomes) = true ↔
      offlineThreshold ≤ trailingOfflineCount outcomes) ∧
    (scannerOfflineFlag (runFetchOutcomes 0 outcomes) = true ↔
      outcomes.getLast? = some true) ∧
    (∀ c, nextOfflineCounter c false = 0) ∧
    (∀ c, c < offlineThreshold → nextOfflineCounter c true = c + 1) ∧
    (∀ c, offlineThreshold ≤ c → nextOfflineCounter c true = offlineThreshold) := by
  refine ⟨?_, ?_, ?_, ?_, ?_⟩
  · rw [runFetchOutcomes_eq_min]
    unfold productsOfflineFlag offlineThreshold
    constructor
    · intro hf
      have := of_decide_eq_true hf
      omega
    · intro ht
      exact decide_eq_true (by omega)
  · rw [runFetchOutcomes_eq_min]
    unfold scannerOfflineFlag trailingOfflineCount offlineThreshold
    rw [← List.head?_reverse]
    cases hrev : outcomes.reverse with
    | nil => simp
    | cons x xs =>
      cases x with
      | false => simp [List.takeWhile_cons]
      | true => simp [List.takeWhile_cons]
  · intro c; rfl
  · intro c hc
    unfold offlineThreshold at hc
    unfold nextOfflineCounter
    rw [if_pos rfl, if_neg (by unfold offlineThreshold; omega)]
  · intro c hc
    unfold offlineThreshold at hc
    unfold nextOfflineCounter
    rw [if_pos rfl, if_pos (by unfold offlineThreshold; omega)]

/-- Witness for the amended C1 theorem at three consecutive offline
reports. -/
theorem offline_flags_characterization_witness :
    (productsOfflineFlag (runFetchOutcomes 0 [true, true, true]) = true ↔
      offlineThreshold ≤ trailingOfflineCount [true, true, true]) ∧
    (scannerOfflineFlag (runFetchOutcomes 0 [true, true, true]) = true ↔
      [true, true, true].getLast? = some true) ∧
    (∀ c, nextOfflineCounter c false = 0) ∧
    (∀ c, c < offlineThreshold → nextOfflineCounter c true = c + 1) ∧
    (∀ c, offlineThreshold ≤ c → nextOfflineCounter c true = offlineThreshold) :=
  offline_flags_characterization [true, true, true]

/-- C5: the key set used for the failing input — non-null, holding no key
for key id k2. -/
def unknownKidKeySet : KeySet := { keys := [{ kid := "k1", key := 1 }] }

/-- C5: a well-formed token whose key id is absent from the key set. -/
def unknownKidToken : TokenData :=
  { headers := [{ alg := "EdDSA", kid := "k2" }]
    claimsUnverified := some {} }

/-- C5: the scanned file carrying that token. -/
def unknownKidFile : LicenseFile :=
  { fn := "/etc/kopano/licenses/l1", readOk := true, parsed := some unknownKidToken }

/-- C5: in unsafe mode with a non-null key set holding no key for the
token's key id, the guard `len(keys) == 0 && !unsafe` does not fire, so the
code executes `key = &keys[0]` on the empty slice and panics (index out of
range) instead of skipping verification as the function's documentation
promises. The safe path on the same input skips the file. -/
theorem unsafeScan_panics_on_unknown_kid :
    scanLicenseFile { jwks := some unknownKidKeySet } unknownKidFile 1500000 true
      = .panicked ∧
    scanLicenseFile { jwks := some unknownKidKeySet } unknownKidFile 1500000 false
      = .skipped "license with unknown kid, ignored" := by
  exact ⟨rfl, rfl⟩

/-- C6, counterexample: the URI index of attempt 4 with 2 URIs is 0 in the
source (the running index is reset to 0 whenever it reaches the end of the
list), while `(attempt-1) mod len(URIs)` would be 1. -/
theorem selectURIIndex_counterexample :
    selectURIIndex 4 2 = 0 ∧ (4 - 1) % 2 = 1 ∧ selectURIIndex 4 2 ≠ (4 - 1) % 2 := by
  decide

/-- C6, amended: the request of attempt n is sent to the URI at index n-1
while n-1 is within range (where it agrees with (n-1) mod len(URIs)), and to
index 0 for every later attempt. -/
theorem selectURIIndex_characterization (attempt numURIs : Nat)
    (h1 : 1 ≤ attempt) (h2 : 1 ≤ numURIs) :
    (attempt ≤ numURIs → selectURIIndex attempt numURIs = (attempt - 1) % numURIs) ∧
    (numURIs < attempt → selectURIIndex attempt numURIs = 0) := by
  constructor
  · intro hle
    have hlt : attempt - 1 < numURIs := by omega
    unfold selectURIIndex
    rw [if_neg (by omega), Nat.mod_eq_of_lt hlt]
  · intro hgt
    unfold selectURIIndex
    rw [if_pos (by omega)]

/-- Witness for the amended C6 theorem at attempt 2 of 3 URIs. -/
theorem selectURIIndex_characterization_witness :
    (1 ≤ 2 ∧ 1 ≤ 3) ∧
    ((2 ≤ 3 → selectURIIndex 2 3 = (2 - 1) % 3) ∧ (3 < 2 → selectURIIndex 2 3 = 0)) :=
  ⟨by decide, selectURIIndex_characterization 2 3 (by decide) (by decide)⟩

/-- C7: a 304 Not Modified attempt leaves the stored key set and entity tag
unchanged, clears the fetcher's offline flag, makes `Update` return null,
and delivers no key-set trigger to the scanner (the server stores nothing
and sends nothing on the trigger channel). -/
theorem notModified_preserves_state (st : FetcherState) (serverJwks : Option KeySet)
    (started : Bool) :
    (applyAttempt st .notModified).1.jwks = st.jwks ∧
    (applyAttempt st .notModified).1.etag = st.etag ∧
    (applyAttempt st .notModified).1.offline = false ∧
    (applyAttempt st .notModified).2.1 = none ∧
    (applyAttempt st .notModified).2.2 = false ∧
    integrateUpdate serverJwks (applyAttempt st .notModified).2.1
      (applyAttempt st .notModified).2.2 started = (serverJwks, false) := by
  refine ⟨rfl, rfl, rfl, rfl, rfl, rfl⟩

/-- C8, counterexample: a POST request to /reload whose form data does not
parse is answered 400 ("failed to parse request form data") before the
credential check, even when the peer credentials carry uid 1000, so not
every POST with non-root credentials is answered 403. -/
theorem reloadHandler_badform_counterexample :
    reloadAdmission { parseFormOk := false, method := "POST", ucred := some { uid := 1000 } }
      = .respond 400 "failed to parse request form data" ∧
    reloadAdmission { parseFormOk := false, method := "POST", ucred := some { uid := 1000 } }
      ≠ .respond 403 "reload request must be sent as root" := by
  decide

/-- C8, amended: every POST request to /reload whose form data parses and
whose peer credentials are present with uid ≠ 0 is answered 403 with body
"reload request must be sent as root", and nothing is sent to the
coordinator's reload channel (the handler never reaches the dispatch step). -/
theorem reloadHandler_forbidden_for_nonroot (r : ReloadRequest) (u : Ucred)
    (hform : r.parseFormOk = true) (hmeth : r.method = "POST")
    (hcred : r.ucred = some u) (huid : u.uid ≠ 0) :
    reloadAdmission r = .respond 403 "reload request must be sent as root" ∧
    reloadAdmission r ≠ .dispatch := by
  unfold reloadAdmission
  rw [hform, hmeth, hcred]
  simp [huid]

/-- Witness for the amended C8 theorem: a parsed POST with uid 1000. -/
theorem reloadHandler_forbidden_for_nonroot_witness :
    ((({ parseFormOk := true, method := "POST", ucred := some { uid := 1000 } } :
        ReloadRequest).parseFormOk = true) ∧ (1000 : Nat) ≠ 0) ∧
    (reloadAdmission { parseFormOk := true, method := "POST", ucred := some { uid := 1000 } }
        = .respond 403 "reload request must be sent as root" ∧
      reloadAdmission { parseFormOk := true, method := "POST", ucred := some { uid := 1000 } }
        ≠ .dispatch) :=
  ⟨by decide,
    reloadHandler_forbidden_for_nonroot _ { uid := 1000 } rfl rfl rfl (by decide)⟩

/-- C10: the raw claims endpoint performs no ready wait — its handler is a
function of the request and claims state alone, and on any state carrying
the initial never-committed claims value it answers 200 with the null
claims document — while the products endpoint's 30-second ready gate
answers 503 ("ready timeout reached") when the timeout wins, for every
claims state. -/
theorem claimsHandler_no_ready_gate (trusted : Bool) (offline : Nat)
    (filter : Option (List String)) (st : ServerClaimsState) :
    claimsHandler true
        { claims := initialServerClaims, trusted := trusted, offline := offline }
      = .jsonClaims 200 none ∧
    claimsKopanoProductsHandler true filter .timeout st
      = some (.errorText 503 "ready timeout reached") := by
  exact ⟨rfl, rfl⟩

/-- C9: `NewServer` initializes the offline counter to the threshold (3), so
the scanner's offline flag (`s.offline > 0`) is already set before any fetch
has completed, it stays set after every failed fetch attempt, and on a cold
boot with no key set ever fetched (`jwks = nil`) a license file whose
embedded certificate chain verifies against the configured root pool is
admitted by the scan. -/
theorem coldBoot_offline_admission (file : LicenseFile) (token : TokenData)
    (h : TokenHeader) (cert : Cert) (restCerts : List Cert)
    (restChains : List (List Cert)) (payload : ClaimsPayload) (now : Int)
    (hread : file.readOk = true)
    (hparse : file.parsed = some token)
    (hhdr : token.headers = [h])
    (halg : allowedAlg h.alg = true)
    (hchains : token.certChains = some ((cert :: restCerts) :: restChains))
    (hclaims : token.claimsVerified cert.publicKey = some payload)
    (hvalid : validateWithLeeway payload.core now defaultLicenseLeeway = true)
    (hsub : trimSpace payload.core.subject ≠ "") :
    newServerOfflineCounter = offlineThreshold ∧
    offlineThreshold = 3 ∧
    scannerOfflineFlag newServerOfflineCounter = true ∧
    (∀ c, scannerOfflineFlag (nextOfflineCounter c true) = true) ∧
    (∃ c, scanLicenseFile
        { certPoolConfigured := true, jwks := none
          offline := scannerOfflineFlag newServerOfflineCounter }
        file now false = .accepted c ∧ c.core = payload.core) := by
  refine ⟨rfl, rfl, rfl, ?_, ?_⟩
  · intro c
    unfold nextOfflineCounter scannerOfflineFlag
    rw [if_pos rfl]
    by_cases hc : c + 1 > offlineThreshold
    · rw [if_pos hc]; decide
    · rw [if_neg hc]
      simp
  · have hsel : scanKeySelect
        { certPoolConfigured := true, jwks := none
          offline := scannerOfflineFlag newServerOfflineCounter }
        token h.kid false = .ok (some cert.publicKey) := by
      unfold scanKeySelect
      simp only [hchains]
      rfl
    refine ⟨{ core := payload.core
              licenseFileName := file.fn
              licenseID := if payload.core.id ≠ "" then payload.core.id else file.fn
              licenseFileID := payload.licenseFileID
              displayName := payload.displayName
              supportIdentificationNumber := payload.supportIdentificationNumber
              kopanoProducts := payload.kopanoProducts }, ?_, rfl⟩
    unfold scanLicenseFile
    simp [hparse, hread, hhdr, halg, hsel, hclaims, hvalid, hsub]

/-- C9 witness data: the leaf certificate of a verified chain. -/
def coldBootCert : Cert := { publicKey := 7 }

/-- C9 witness data: decoded claims of the offline-admitted license. -/
def coldBootPayload : ClaimsPayload :=
  { core := { subject := "cust-A", id := "j-1", issuedAt := some 1000000
              notBefore := some 1000000, expiry := some 2000000000 }
    licenseFileID := "u-1" }

/-- C9 witness data: the parsed token with a chain that verifies against the
pool and claims that verify under the leaf key. -/
def coldBootToken : TokenData :=
  { headers := [{ alg := "EdDSA", kid := "k1" }]
    certChains := some [[coldBootCert]]
    claimsVerified := fun k => if k = 7 then some coldBootPayload else none }

/-- C9 witness data: the scanned file. -/
def coldBootFile : LicenseFile :=
  { fn := "/etc/kopano/licenses/l1", readOk := true, parsed := some coldBootToken }

/-- Witness for the C9 theorem on a concrete cold-boot scan. -/
theorem coldBoot_offline_admission_witness :
    (coldBootFile.readOk = true ∧
     coldBootFile.parsed = some coldBootToken ∧
     coldBootToken.headers = [{ alg := "EdDSA", kid := "k1" }] ∧
     allowedAlg "EdDSA" = true ∧
     coldBootToken.certChains = some ((coldBootCert :: []) :: []) ∧
     coldBootToken.claimsVerified coldBootCert.publicKey = some coldBootPayload ∧
     validateWithLeeway coldBootPayload.core 1500000 defaultLicenseLeeway = true ∧
     trimSpace coldBootPayload.core.subject ≠ "") ∧
    (newServerOfflineCounter = offlineThreshold ∧
     offlineThreshold = 3 ∧
     scannerOfflineFlag newServerOfflineCounter = true ∧
     (∀ c, scannerOfflineFlag (nextOfflineCounter c true) = true) ∧
     (∃ c, scanLicenseFile
         { certPoolConfigured := true, jwks := none
           offline := scannerOfflineFlag newServerOfflineCounter }
         coldBootFile 1500000 false = .accepted c ∧ c.core = coldBootPayload.core)) :=
  ⟨⟨rfl, rfl, rfl, by decide, rfl, rfl, by decide, by decide⟩,
    coldBoot_offline_admission coldBootFile coldBootToken { alg := "EdDSA", kid := "k1" }
      coldBootCert [] [] coldBootPayload 1500000 rfl rfl rfl (by decide) rfl rfl
      (by decide) (by decide)⟩

/-! ## Aggregation lemmas: exclusive-claim pinning and conflicts -/

/-- The exclusive-validation loop as a fold. -/
def validateFold (entry : ProductEntry) (pairs : List (String × CValue))
    (acc : Bool × List (String × CValue)) : Bool × List (String × CValue) :=
  pairs.foldl (fun a kv => validateClaimStep entry a kv.1 kv.2) acc

theorem validateFold_cons (entry : ProductEntry) (kv : String × CValue)
    (rest : List (String × CValue)) (acc : Bool × List (String × CValue)) :
    validateFold entry (kv :: rest) acc
      = validateFold entry rest (validateClaimStep entry acc kv.1 kv.2) := rfl

theorem validateFold_append (entry : ProductEntry) (l1 l2 : List (String × CValue))
    (acc : Bool × List (String × CValue)) :
    validateFold entry (l1 ++ l2) acc = validateFold entry l2 (validateFold entry l1 acc) := by
  unfold validateFold
  simp [List.foldl_append]

theorem validateFold_fst_of_fresh (entry : ProductEntry)
    (hfresh : entry.exclusiveClaims = []) (pairs : List (String × CValue))
    (acc : Bool × List (String × CValue)) :
    (validateFold entry pairs acc).1 = acc.1 := by
  induction pairs generalizing acc with
  | nil => rfl
  | cons kv rest ih =>
    rw [validateFold_cons, ih]
    unfold validateClaimStep
    rw [hfresh, alookup_nil]
    by_cases hk : kv.1 = ExclusiveClaim
    · simp [hk]
    · simp only [hk, if_false]
      cases alookup acc.2 kv.1 <;> rfl

theorem validateFold_fst_of_false (entry : ProductEntry)
    (pairs : List (String × CValue)) (cur : List (String × CValue)) :
    (validateFold entry pairs (false, cur)).1 = false := by
  induction pairs generalizing cur with
  | nil => rfl
  | cons kv rest ih =>
    rw [validateFold_cons]
    unfold validateClaimStep
    by_cases hk : kv.1 = ExclusiveClaim
    · simp only [hk, if_pos rfl]
      exact ih cur
    · simp only [hk, if_false]
      cases halo : alookup entry.exclusiveClaims kv.1 with
      | some ev => by_cases hbeq : cvalBeq kv.2 ev = true <;> simp [hbeq, ih]
      | none => cases alookup cur kv.1 <;> simp [ih]

theorem alookup_some_mem (m : List (String × α)) (k : String) (v : α)
    (h : alookup m k = some v) : (k, v) ∈ m := by
  induction m with
  | nil => simp [alookup_nil] at h
  | cons kv rest ih =>
    rw [alookup_cons] at h
    by_cases hk : kv.1 = k
    · rw [if_pos hk] at h
      have hv : kv.2 = v := by injection h
      have : kv = (k, v) := by
        cases kv; cases hk; cases hv; rfl
      rw [← this]
      exact List.mem_cons_self kv rest
    · rw [if_neg hk] at h
      exact List.mem_cons_of_mem kv (ih h)

theorem validateFold_fst_of_conflict (entry : ProductEntry)
    (pairs : List (String × CValue)) (K : String) (v v1 : CValue)
    (hmem : (K, v1) ∈ pairs) (hKne : K ≠ ExclusiveClaim)
    (hpin : alookup entry.exclusiveClaims K = some v)
    (hconf : cvalBeq v1 v = false) (acc : Bool × List (String × CValue)) :
    (validateFold entry pairs acc).1 = false := by
  induction pairs generalizing acc with
  | nil => cases hmem
  | cons kv rest ih =>
    rw [validateFold_cons]
    rcases List.mem_cons.mp hmem with hhd | htl
    · rw [← hhd]
      unfold validateClaimStep
      simp only [hKne, if_false, hpin, hconf]
      by_cases hfst : (validateFold entry rest (false, acc.2)).1 = false
      · simpa using validateFold_fst_of_false entry rest acc.2
      · exact absurd (validateFold_fst_of_false entry rest acc.2) hfst
    · exact ih htl _

/-- Second component tracking: pairs whose keys avoid K do not change the
K-entries of currentExclusiveClaims. -/
theorem filter_key_ainsert_ne (m : List (String × α)) (k K : String) (v : α)
    (h : k ≠ K) :
    (ainsert m k v).filter (fun kv => kv.1 = K) = m.filter (fun kv => kv.1 = K) := by
  unfold ainsert
  rw [List.filter_cons]
  simp only [h, if_false, decide_eq_true_eq]
  rw [List.filter_filter]
  refine List.filter_congr ?_
  intro kv _
  by_cases hkv : kv.1 = K
  · have h1 : ¬ kv.1 = k := by rw [hkv]; exact fun hc => h hc.symm
    have h2 : ¬ K = k := fun hc => h hc.symm
    simp [hkv, h1, h2]
  · simp [hkv]

theorem filter_key_ainsert_self (m : List (String × α)) (K : String) (v : α) :
    (ainsert m K v).filter (fun kv => kv.1 = K) = [(K, v)] := by
  unfold ainsert
  rw [List.filter_cons]
  simp only [decide_eq_true_eq, if_pos rfl]
  rw [List.filter_filter]
  have : ∀ kv ∈ m, (decide (kv.1 = K) && decide ¬ (kv.1 = K)) = false := by
    intro kv _
    by_cases hkv : kv.1 = K <;> simp [hkv]
  rw [List.filter_eq_nil_iff.mpr (by intro kv hkv; simp [this kv hkv])]
  simp

theorem alookup_eq_filter_head (m : List (String × α)) (K : String) :
    alookup m K = ((m.filter (fun kv => kv.1 = K)).head?).map (fun kv => kv.2) := by
  induction m with
  | nil => rfl
  | cons kv rest ih =>
    rw [alookup_cons, List.filter_cons]
    by_cases h : kv.1 = K
    · simp [h]
    · simp [h, ih]

theorem validateFold_filter_of_avoid (entry : ProductEntry)
    (pairs : List (String × CValue)) (K : String)
    (havoid : ∀ kv ∈ pairs, kv.1 ≠ K) (acc : Bool × List (String × CValue)) :
    ((validateFold entry pairs acc).2).filter (fun kv => kv.1 = K)
      = acc.2.filter (fun kv => kv.1 = K) := by
  induction pairs generalizing acc with
  | nil => rfl
  | cons kv rest ih =>
    rw [validateFold_cons]
    have hk : kv.1 ≠ K := havoid kv (List.mem_cons_self kv rest)
    have htl : ∀ kv ∈ rest, kv.1 ≠ K := fun x hx => havoid x (List.mem_cons_of_mem kv hx)
    rw [ih htl]
    unfold validateClaimStep
    by_cases hke : kv.1 = ExclusiveClaim
    · simp [hke]
    · simp only [hke, if_false]
      cases alookup entry.exclusiveClaims kv.1 with
      | some ev => by_cases hbeq : cvalBeq kv.2 ev = true <;> simp [hbeq]
      | none =>
        cases alookup acc.2 kv.1 with
        | some w => simpa using filter_key_ainsert_ne acc.2 kv.1 K kv.2 hk
        | none => rfl

theorem alookup_map_vNull (exs : List String) (K : String) :
    alookup (exs.map (fun k => (k, CValue.vNull))) K
      = if K ∈ exs then some CValue.vNull else none := by
  induction exs with
  | nil => simp [alookup_nil]
  | cons e es ih =>
    rw [List.map_cons, alookup_cons]
    by_cases he : e = K
    · subst he; simp
    · have hKe : ¬ K = e := fun hc => he hc.symm
      simp only [he, if_false, ih]
      by_cases hm : K ∈ es
      · simp [hm, List.mem_cons, hKe]
      · simp [hm, List.mem_cons, hKe]

/-- Splitting an association list at the first binding of K when keys are
nodup (as they are for a Go map). -/
theorem alookup_split (m : List (String × α)) (K : String) (v : α)
    (h : alookup m K = some v) (hnodup : (m.map Prod.fst).Nodup) :
    ∃ pre post, m = pre ++ (K, v) :: post ∧
      (∀ kv ∈ pre, kv.1 ≠ K) ∧ (∀ kv ∈ post, kv.1 ≠ K) := by
  induction m with
  | nil => simp [alookup_nil] at h
  | cons kv rest ih =>
    rw [alookup_cons] at h
    rw [List.map_cons, List.nodup_cons] at hnodup
    by_cases hk : kv.1 = K
    · rw [if_pos hk] at h
      have hv : kv.2 = v := by injection h
      refine ⟨[], rest, ?_, by simp, ?_⟩
      · have : kv = (K, v) := by cases kv; cases hk; cases hv; rfl
        rw [this, List.nil_append]
      · intro x hx hxK
        exact hnodup.1 (hk ▸ hxK ▸ List.mem_map_of_mem Prod.fst hx)
    · rw [if_neg hk] at h
      obtain ⟨pre, post, heq, hpre, hpost⟩ := ih h hnodup.2
      exact ⟨kv :: pre, post, by rw [heq, List.cons_append], by
        intro x hx
        rcases List.mem_cons.mp hx with hx1 | hx2
        · rw [hx1]; exact hk
        · exact hpre x hx2, hpost⟩

/-- Pinning fold: entries with other keys do not affect the K lookup. -/
theorem pinFold_alookup_of_avoid (cur : List (String × CValue))
    (m : List (String × CValue)) (K : String)
    (havoid : cur.filter (fun kv => kv.1 = K) = []) :
    alookup (cur.foldl pinExclusiveStep m) K = alookup m K := by
  induction cur generalizing m with
  | nil => rfl
  | cons c rest ih =>
    rw [List.filter_cons] at havoid
    by_cases hc : c.1 = K
    · simp [hc] at havoid
    · simp only [hc, decide_eq_true_eq, if_false] at havoid
      rw [List.foldl_cons, ih _ havoid]
      unfold pinExclusiveStep
      cases hv : c.2 with
      | vNull => rfl
      | vInt n => rw [alookup_ainsert, if_neg hc]
      | vFloat x => rw [alookup_ainsert, if_neg hc]
      | vStr s => rw [alookup_ainsert, if_neg hc]
      | vBool b => rw [alookup_ainsert, if_neg hc]
      | vArr xs => rw [alookup_ainsert, if_neg hc]
      | vStrArr xs => rw [alookup_ainsert, if_neg hc]

theorem pinFold_alookup_pinned (cur : List (String × CValue))
    (m : List (String × CValue)) (K : String) (v : CValue)
    (hfilter : cur.filter (fun kv => kv.1 = K) = [(K, v)])
    (hvnn : v ≠ CValue.vNull) :
    alookup (cur.foldl pinExclusiveStep m) K = some v := by
  induction cur generalizing m with
  | nil => simp at hfilter
  | cons c rest ih =>
    rw [List.filter_cons] at hfilter
    by_cases hc : c.1 = K
    · rw [if_pos (by simp [hc])] at hfilter
      injection hfilter with hcv hrest
      rw [List.foldl_cons, pinFold_alookup_of_avoid rest _ K hrest, hcv]
      unfold pinExclusiveStep
      cases hv : v with
      | vNull => exact absurd hv hvnn
      | vInt n => simp [alookup_ainsert]
      | vFloat x => simp [alookup_ainsert]
      | vStr s => simp [alookup_ainsert]
      | vBool b => simp [alookup_ainsert]
      | vArr xs => simp [alookup_ainsert]
      | vStrArr xs => simp [alookup_ainsert]
    · simp only [hc, decide_eq_true_eq, if_false] at hfilter
      rw [List.foldl_cons]
      exact ih _ hfilter

/-- C2: when the oldest contributing license l0 for a product marks key K
exclusive with (non-null) value v, the value is pinned into the product
entry; thereafter every later license whose value for K differs from v
contributes nothing under that product: processing it returns the entry
exactly unchanged (no claim merged, no expiry, display name or support id
appended, nothing newly pinned) — only the conflict warning is logged. -/
theorem exclusiveConflict_drops_later_contribution
    (l0 l1 : Claims) (p0 p1 : Product) (e0 : ProductEntry)
    (ev : CValue) (exs : List String) (K : String) (v v1 : CValue)
    (hfresh : e0.exclusiveClaims = [])
    (hnodup : (p0.unknown.map Prod.fst).Nodup)
    (hex : alookup p0.unknown ExclusiveClaim = some ev)
    (hexs : asStringArr ev = some exs)
    (hK : K ∈ exs)
    (hKne : K ≠ ExclusiveClaim)
    (hv : alookup p0.unknown K = some v)
    (hvnn : v ≠ CValue.vNull)
    (hv1 : alookup p1.unknown K = some v1)
    (hconf : cvalBeq v1 v = false) :
    alookup (processProduct l0 p0 e0).exclusiveClaims K = some v ∧
    processProduct l1 p1 (processProduct l0 p0 e0) = processProduct l0 p0 e0 := by
  have hfst : (validateFold e0 p0.unknown
      (true, exs.map (fun k => (k, CValue.vNull)))).1 = true :=
    validateFold_fst_of_fresh e0 hfresh _ _
  obtain ⟨pre, post, heq, hpre, hpost⟩ := alookup_split p0.unknown K v hv hnodup
  have haccK : alookup ((validateFold e0 pre
      (true, exs.map (fun k => (k, CValue.vNull)))).2) K = some CValue.vNull := by
    rw [alookup_eq_filter_head, validateFold_filter_of_avoid e0 pre K hpre,
      ← alookup_eq_filter_head, alookup_map_vNull]
    simp [hK]
  have hstep : validateClaimStep e0
      (validateFold e0 pre (true, exs.map (fun k => (k, CValue.vNull)))) K v
      = ((validateFold e0 pre (true, exs.map (fun k => (k, CValue.vNull)))).1,
          ainsert (validateFold e0 pre
            (true, exs.map (fun k => (k, CValue.vNull)))).2 K v) := by
    unfold validateClaimStep
    rw [hfresh, alookup_nil, haccK]
    simp [hKne]
  have hfil : ((validateFold e0 p0.unknown
      (true, exs.map (fun k => (k, CValue.vNull)))).2).filter (fun kv => kv.1 = K)
      = [(K, v)] := by
    rw [heq, validateFold_append, validateFold_cons, hstep,
      validateFold_filter_of_avoid e0 post K hpost]
    exact filter_key_ainsert_self _ K v
  have hpin : alookup (processProduct l0 p0 e0).exclusiveClaims K = some v := by
    have hred : (processProduct l0 p0 e0).exclusiveClaims
        = ((validateFold e0 p0.unknown
            (true, exs.map (fun k => (k, CValue.vNull)))).2).foldl
          pinExclusiveStep e0.exclusiveClaims := by
      unfold processProduct
      rw [hex]
      simp only [hexs]
      have hfstRaw : (p0.unknown.foldl
          (fun acc kv => validateClaimStep e0 acc kv.1 kv.2)
          (true, exs.map (fun k => (k, CValue.vNull)))).1 = true := hfst
      rw [hfstRaw]
      simp [validateFold]
    rw [hred, hfresh]
    exact pinFold_alookup_pinned _ _ K v hfil hvnn
  refine ⟨hpin, ?_⟩
  have hmem1 : (K, v1) ∈ p1.unknown := alookup_some_mem _ _ _ hv1
  generalize hE : processProduct l0 p0 e0 = e1 at hpin ⊢
  have hconfFold : ∀ cur0 : List (String × CValue),
      (validateFold e1 p1.unknown (true, cur0)).1 = false :=
    fun cur0 => validateFold_fst_of_conflict _ p1.unknown K v v1 hmem1 hKne hpin
      hconf _
  unfold processProduct
  cases hx : alookup p1.unknown ExclusiveClaim with
  | none =>
    simp only [hx]
    have hfstRaw : (p1.unknown.foldl
        (fun acc kv => validateClaimStep e1 acc kv.1 kv.2)
        (true, ([] : List (String × CValue)))).1 = false := hconfFold []
    rw [hfstRaw]
    simp
  | some ev1 =>
    simp only [hx]
    cases hy : asStringArr ev1 with
    | none => simp [hy]
    | some exs1 =>
      simp only [hy]
      have hfstRaw : (p1.unknown.foldl
          (fun acc kv => validateClaimStep e1 acc kv.1 kv.2)
          (true, exs1.map (fun k => (k, CValue.vNull)))).1 = false :=
        hconfFold (exs1.map (fun k => (k, CValue.vNull)))
      rw [hfstRaw]
      simp

/-- C2 witness data: the oldest license's product x, marking `multitenant`
exclusive with value true. -/
def exclusiveL0Product : Product :=
  { licenseID := "l-1"
    unknown := [("multitenant", CValue.vBool true),
                ("exclusive", CValue.vStrArr ["multitenant"])] }

/-- C2 witness data: the newer license's product x, disagreeing on
`multitenant`. -/
def exclusiveL1Product : Product :=
  { licenseID := "l-2"
    unknown := [("multitenant", CValue.vBool false), ("users", CValue.vInt 10)] }

/-- Witness for the C2 theorem on the concrete exclusive-conflict scenario. -/
theorem exclusiveConflict_drops_later_contribution_witness :
    (emptyProductEntry.exclusiveClaims = [] ∧
     (exclusiveL0Product.unknown.map Prod.fst).Nodup ∧
     alookup exclusiveL0Product.unknown ExclusiveClaim
        = some (CValue.vStrArr ["multitenant"]) ∧
     asStringArr (CValue.vStrArr ["multitenant"]) = some ["multitenant"] ∧
     "multitenant" ∈ ["multitenant"] ∧
     "multitenant" ≠ ExclusiveClaim ∧
     alookup exclusiveL0Product.unknown "multitenant" = some (CValue.vBool true) ∧
     alookup exclusiveL1Product.unknown "multitenant" = some (CValue.vBool false) ∧
     cvalBeq (CValue.vBool false) (CValue.vBool true) = false) ∧
    (alookup (processProduct {} exclusiveL0Product emptyProductEntry).exclusiveClaims
        "multitenant" = some (CValue.vBool true) ∧
     processProduct {} exclusiveL1Product
        (processProduct {} exclusiveL0Product emptyProductEntry)
        = processProduct {} exclusiveL0Product emptyProductEntry) :=
  ⟨⟨rfl, by decide, rfl, rfl, by decide, by decide, rfl, rfl, rfl⟩,
    exclusiveConflict_drops_later_contribution {} {} exclusiveL0Product
      exclusiveL1Product emptyProductEntry (CValue.vStrArr ["multitenant"])
      ["multitenant"] "multitenant" (CValue.vBool true) (CValue.vBool false)
      rfl (by decide) rfl rfl (by decide) (by decide) rfl
      (fun h => CValue.noConfusion h) rfl rfl⟩

/-! ## Deduplication lemmas -/

/-- The accepted entries of the deduplication loop in processing order (the
loop prepends, so the loop's result slice is the reverse of this list). -/
def dedupPure : List Claims → List String → List Claims
  | [], _ => []
  | c :: cs, seen =>
    if ¬ seen.contains c.licenseFileID then
      c :: dedupPure cs
        (if c.licenseFileID ≠ "" then c.licenseFileID :: seen else seen)
    else dedupPure cs seen

theorem dedupPure_cons (c : Claims) (cs : List Claims) (seen : List String) :
    dedupPure (c :: cs) seen
      = if ¬ seen.contains c.licenseFileID then
          c :: dedupPure cs
            (if c.licenseFileID ≠ "" then c.licenseFileID :: seen else seen)
        else dedupPure cs seen := rfl

theorem dedupStep_of_seen (st : DedupState) (c : Claims)
    (hs : st.seen.contains c.licenseFileID = true) :
    (dedupStep st c).seen = st.seen ∧ (dedupStep st c).result = st.result := by
  unfold dedupStep
  constructor <;> · rw [if_neg (by simpa using hs)]

theorem dedupStep_of_not_seen (st : DedupState) (c : Claims)
    (hs : ¬ st.seen.contains c.licenseFileID = true) :
    (dedupStep st c).seen
        = (if c.licenseFileID ≠ "" then c.licenseFileID :: st.seen else st.seen) ∧
      (dedupStep st c).result = c :: st.result := by
  unfold dedupStep
  constructor <;> · rw [if_pos hs]

theorem foldl_dedupStep_result (L : List Claims) (st : DedupState) :
    (L.foldl dedupStep st).result = (dedupPure L st.seen).reverse ++ st.result := by
  induction L generalizing st with
  | nil => simp [dedupPure]
  | cons c cs ih =>
    rw [List.foldl_cons, ih, dedupPure_cons]
    by_cases hs : st.seen.contains c.licenseFileID = true
    · obtain ⟨h1, h2⟩ := dedupStep_of_seen st c hs
      rw [h1, h2, if_neg (by simpa using hs)]
    · obtain ⟨h1, h2⟩ := dedupStep_of_not_seen st c hs
      rw [h1, h2, if_pos hs, List.reverse_cons, List.append_assoc]
      rfl

theorem dedupPure_mem_not_seen (L : List Claims) (seen : List String) (d : Claims)
    (hd : d ∈ dedupPure L seen) (hne : d.licenseFileID ≠ "") :
    seen.contains d.licenseFileID = false := by
  induction L generalizing seen with
  | nil => simp [dedupPure] at hd
  | cons c cs ih =>
    unfold dedupPure at hd
    by_cases hs : seen.contains c.licenseFileID = true
    · rw [if_neg (by simpa using hs)] at hd
      exact ih _ hd
    · rw [if_pos (by simpa using hs)] at hd
      rcases List.mem_cons.mp hd with h1 | h2
      · rw [h1]; simpa using hs
      · have hbig := ih _ h2
        by_cases hc : c.licenseFileID ≠ ""
        · rw [if_pos hc] at hbig
          rw [List.contains_cons] at hbig
          exact (Bool.or_eq_false_iff.mp hbig).2
        · rw [if_neg hc] at hbig
          exact hbig

theorem dedupPure_pairwise (L : List Claims) (seen : List String) :
    (dedupPure L seen).Pairwise
      (fun a b => a.licenseFileID = b.licenseFileID → a.licenseFileID = "") := by
  induction L generalizing seen with
  | nil => simp [dedupPure]
  | cons c cs ih =>
    unfold dedupPure
    by_cases hs : seen.contains c.licenseFileID = true
    · rw [if_neg (by simpa using hs)]; exact ih _
    · rw [if_pos (by simpa using hs)]
      refine List.Pairwise.cons ?_ (ih _)
      intro b hb hab
      by_contra hcne
      have hbne : b.licenseFileID ≠ "" := by rw [← hab]; exact hcne
      have hmem := dedupPure_mem_not_seen cs _ b hb hbne
      rw [if_pos hcne] at hmem
      rw [List.contains_cons, ← hab] at hmem
      simp at hmem

theorem dedupPure_filter_uid (L : List Claims) (seen : List String) (u : String)
    (hu : u ≠ "") (hseen : seen.contains u = false) (d : Claims)
    (hfind : L.find? (fun c => c.licenseFileID == u) = some d) :
    (dedupPure L seen).filter (fun c => c.licenseFileID == u) = [d] := by
  induction L generalizing seen with
  | nil => simp at hfind
  | cons c cs ih =>
    by_cases hcu : (c.licenseFileID == u) = true
    · have hcEq : c.licenseFileID = u := eq_of_beq hcu
      rw [@List.find?_cons_of_pos _ (fun c => c.licenseFileID == u) c cs hcu] at hfind
      have hdc : d = c := by injection hfind with h; exact h.symm
      unfold dedupPure
      rw [if_pos (by rw [hcEq]; simpa using hseen)]
      rw [@List.filter_cons_of_pos _ (fun c => c.licenseFileID == u) c _ hcu]
      have htail : (dedupPure cs
          (if c.licenseFileID ≠ "" then c.licenseFileID :: seen else seen)).filter
            (fun c => c.licenseFileID == u) = [] := by
        rw [List.filter_eq_nil_iff]
        intro e he hbe
        have heEq : e.licenseFileID = u := eq_of_beq hbe
        have hene : e.licenseFileID ≠ "" := by rw [heEq]; exact hu
        have hmem := dedupPure_mem_not_seen cs _ e he hene
        rw [if_pos (by rw [hcEq]; exact hu)] at hmem
        rw [List.contains_cons, heEq, hcEq] at hmem
        simp at hmem
      rw [htail, hdc]
    · rw [@List.find?_cons_of_neg _ (fun c => c.licenseFileID == u) c cs
        (by simpa using hcu)] at hfind
      unfold dedupPure
      by_cases hs : seen.contains c.licenseFileID = true
      · rw [if_neg (by simpa using hs)]
        exact ih _ hseen hfind
      · rw [if_pos (by simpa using hs)]
        rw [@List.filter_cons_of_neg _ (fun c => c.licenseFileID == u) c _
          (by simpa using hcu)]
        refine ih _ ?_ hfind
        by_cases hc : c.licenseFileID ≠ ""
        · rw [if_pos hc, List.contains_cons]
          have : (u == c.licenseFileID) = false := by
            have : ¬ c.licenseFileID = u := fun h => by
              rw [h] at hcu; simp at hcu
            exact beq_eq_false_iff_ne.mpr (fun hc2 => this hc2.symm)
          rw [this, hseen]
          rfl
        · rw [if_neg hc]
          exact hseen

theorem dedupPure_filter_empty (L : List Claims) (seen : List String)
    (hseen : seen.contains "" = false) :
    (dedupPure L seen).filter (fun c => c.licenseFileID == "")
      = L.filter (fun c => c.licenseFileID == "") := by
  induction L generalizing seen with
  | nil => rfl
  | cons c cs ih =>
    unfold dedupPure
    by_cases hc : c.licenseFileID = ""
    · rw [if_pos (by rw [hc]; simpa using hseen)]
      rw [if_neg (by rw [hc]; simp)]
      rw [List.filter_cons_of_pos (by simp [hc]),
        List.filter_cons_of_pos (by simp [hc])]
      rw [ih seen hseen]
    · by_cases hs : seen.contains c.licenseFileID = true
      · rw [if_neg (by simpa using hs)]
        rw [List.filter_cons_of_neg (by simp [hc])]
        exact ih _ hseen
      · rw [if_pos (by simpa using hs)]
        rw [List.filter_cons_of_neg (by simp [hc]),
          List.filter_cons_of_neg (by simp [hc])]
        refine ih _ ?_
        rw [if_pos hc, List.contains_cons]
        have : ("" == c.licenseFileID) = false :=
          beq_eq_false_iff_ne.mpr (fun h => hc h.symm)
        rw [this, hseen]
        rfl

theorem find?_max_of_sorted_desc (l : List Claims) (p : Claims → Bool) (d : Claims)
    (hsort : l.Pairwise (fun a b => iatKey b ≤ iatKey a))
    (hfind : l.find? p = some d) :
    ∀ c ∈ l, p c = true → iatKey c ≤ iatKey d := by
  induction l with
  | nil => simp at hfind
  | cons x xs ih =>
    rcases List.pairwise_cons.mp hsort with ⟨hx, hxs⟩
    by_cases hpx : p x = true
    · rw [List.find?_cons_of_pos _ hpx] at hfind
      have hd : x = d := by injection hfind
      intro c hc hpc
      rcases List.mem_cons.mp hc with h1 | h2
      · rw [h1, ← hd]
      · rw [← hd]; exact hx c h2
    · rw [List.find?_cons_of_neg _ (by simpa using hpx)] at hfind
      intro c hc hpc
      rcases List.mem_cons.mp hc with h1 | h2
      · exact absurd (h1 ▸ hpc) hpx
      · exact ih hxs hfind c h2 hpc

theorem sortClaims_pairwise (claims : List Claims) :
    (sortClaimsByIatDesc claims).Pairwise (fun a b => iatKey b ≤ iatKey a) := by
  unfold sortClaimsByIatDesc
  have h := @List.sorted_mergeSort _ (fun a b => decide (iatKey b ≤ iatKey a))
    (fun a b c hab hbc => by
      simp only [decide_eq_true_eq] at hab hbc ⊢
      omega)
    (fun a b => by
      rcases Int.le_total (iatKey b) (iatKey a) with hle | hle <;> simp [hle])
    claims
  exact h.imp (fun hab => of_decide_eq_true hab)

theorem sortClaims_perm (claims : List Claims) :
    (sortClaimsByIatDesc claims).Perm claims := by
  unfold sortClaimsByIatDesc
  exact List.mergeSort_perm claims _

theorem sortAndDeduplicate_claims_eq (h0 : List (String × Claims)) (cs : List Claims) :
    (sortAndDeduplicate h0 cs).claims
      = (dedupPure (sortClaimsByIatDesc cs) []).reverse := by
  have h := foldl_dedupStep_result (sortClaimsByIatDesc cs)
    { all := [], added := [], history := h0, seen := [], result := [] }
  simpa [sortAndDeduplicate] using h

/-- C3: after sorting and deduplication no two output entries share a
non-empty file-id; for a non-empty file-id u present in the input, exactly
one output entry carries u, it is one of the input entries with u, and its
issued-at instant is maximal among them (the newest wins); entries with an
empty file-id are all kept (the multiset of empty-file-id entries is
preserved). -/
theorem sortAndDeduplicate_uid_dedup (h0 : List (String × Claims))
    (cs : List Claims) (u : String)
    (hu : u ≠ "") (hex : ∃ c ∈ cs, c.licenseFileID = u) :
    ((sortAndDeduplicate h0 cs).claims.Pairwise
      (fun a b => a.licenseFileID = b.licenseFileID → a.licenseFileID = "")) ∧
    (∃ d, (sortAndDeduplicate h0 cs).claims.filter
        (fun c => c.licenseFileID == u) = [d] ∧
      d ∈ cs ∧ d.licenseFileID = u ∧
      ∀ c ∈ cs, c.licenseFileID = u → iatKey c ≤ iatKey d) ∧
    ((sortAndDeduplicate h0 cs).claims.filter
        (fun c => c.licenseFileID == "")).Perm
      (cs.filter (fun c => c.licenseFileID == "")) := by
  rw [sortAndDeduplicate_claims_eq]
  refine ⟨?_, ?_, ?_⟩
  · rw [List.pairwise_reverse]
    refine (dedupPure_pairwise _ []).imp ?_
    intro a b hab hba
    exact hba.trans (hab hba.symm)
  · have hexSorted : ∃ c, c ∈ sortClaimsByIatDesc cs ∧
        (fun c => c.licenseFileID == u) c = true := by
      obtain ⟨c, hc, hcu⟩ := hex
      exact ⟨c, (sortClaims_perm cs).mem_iff.mpr hc, by simp [hcu]⟩
    have hisSome : ((sortClaimsByIatDesc cs).find?
        (fun c => c.licenseFileID == u)).isSome := List.find?_isSome.mpr hexSorted
    obtain ⟨d, hd⟩ := Option.isSome_iff_exists.mp hisSome
    refine ⟨d, ?_, ?_, ?_, ?_⟩
    · rw [List.filter_reverse, dedupPure_filter_uid _ [] u hu rfl d hd]
      rfl
    · exact (sortClaims_perm cs).mem_iff.mp (List.mem_of_find?_eq_some hd)
    · have hpd := @List.find?_some _ (fun c => c.licenseFileID == u) d _ hd
      exact eq_of_beq hpd
    · intro c hc hcu
      exact find?_max_of_sorted_desc _ _ d (sortClaims_pairwise cs) hd c
        ((sortClaims_perm cs).mem_iff.mpr hc) (by simp [hcu])
  · rw [List.filter_reverse, dedupPure_filter_empty _ [] rfl]
    exact ((sortClaimsByIatDesc cs).filter _).reverse_perm.trans
      ((sortClaims_perm cs).filter _)

/-- C3 witness data: the older license file with uid u-1 (iat 100). -/
def s2ClaimA : Claims :=
  { core := { subject := "cust-A", issuedAt := some 100 }
    licenseFileID := "u-1", licenseID := "j-a" }

/-- C3 witness data: the newer license file with the same uid (iat 200). -/
def s2ClaimB : Claims :=
  { core := { subject := "cust-A", issuedAt := some 200 }
    licenseFileID := "u-1", licenseID := "j-b" }

/-- Witness for the C3 theorem on the two-licenses-same-uid scenario. -/
theorem sortAndDeduplicate_uid_dedup_witness :
    (("u-1" : String) ≠ "" ∧ ∃ c ∈ [s2ClaimA, s2ClaimB], c.licenseFileID = "u-1") ∧
    (((sortAndDeduplicate [] [s2ClaimA, s2ClaimB]).claims.Pairwise
      (fun a b => a.licenseFileID = b.licenseFileID → a.licenseFileID = "")) ∧
    (∃ d, (sortAndDeduplicate [] [s2ClaimA, s2ClaimB]).claims.filter
        (fun c => c.licenseFileID == "u-1") = [d] ∧
      d ∈ [s2ClaimA, s2ClaimB] ∧ d.licenseFileID = "u-1" ∧
      ∀ c ∈ [s2ClaimA, s2ClaimB], c.licenseFileID = "u-1" → iatKey c ≤ iatKey d) ∧
    ((sortAndDeduplicate [] [s2ClaimA, s2ClaimB]).claims.filter
        (fun c => c.licenseFileID == "")).Perm
      ([s2ClaimA, s2ClaimB].filter (fun c => c.licenseFileID == ""))) :=
  ⟨⟨by decide, ⟨s2ClaimA, List.mem_cons_self _ _, rfl⟩⟩,
    sortAndDeduplicate_uid_dedup [] [s2ClaimA, s2ClaimB] "u-1" (by decide)
      ⟨s2ClaimA, List.mem_cons_self _ _, rfl⟩⟩

/-! ## Rebuild idempotence lemmas -/

theorem alookup_isSome_of_mem (m : List (String × α)) (kv : String × α)
    (h : kv ∈ m) : (alookup m kv.1).isSome = true := by
  induction m with
  | nil => cases h
  | cons a rest ih =>
    rw [alookup_cons]
    by_cases ha : a.1 = kv.1
    · rw [if_pos ha]; rfl
    · rw [if_neg ha]
      rcases List.mem_cons.mp h with h1 | h2
      · exact absurd (by rw [h1]) ha
      · exact ih h2

theorem dedupStep_history (st : DedupState) (c : Claims) :
    (dedupStep st c).history
      = if (alookup st.history c.licenseID).isSome then st.history
        else ainsert st.history c.licenseID c := by
  unfold dedupStep
  split <;> rfl

theorem dedupStep_added (st : DedupState) (c : Claims) :
    (dedupStep st c).added
      = ainsert st.added c.licenseID (!(alookup st.history c.licenseID).isSome) := by
  unfold dedupStep
  split <;> rfl

theorem foldl_dedupStep_history_isSome (L : List Claims) (st : DedupState)
    (k : String) :
    (alookup (L.foldl dedupStep st).history k).isSome = true
      ↔ (alookup st.history k).isSome = true ∨ k ∈ L.map Claims.licenseID := by
  induction L generalizing st with
  | nil => simp
  | cons c cs ih =>
    rw [List.foldl_cons, ih, dedupStep_history]
    by_cases hkn : (alookup st.history c.licenseID).isSome = true
    · rw [if_pos hkn, List.map_cons]
      constructor
      · rintro (h | h)
        · exact Or.inl h
        · exact Or.inr (List.mem_cons_of_mem _ h)
      · rintro (h | h)
        · exact Or.inl h
        · rcases List.mem_cons.mp h with h1 | h2
          · subst h1; exact Or.inl hkn
          · exact Or.inr h2
    · rw [if_neg hkn, List.map_cons]
      by_cases hk : c.licenseID = k
      · subst hk
        rw [alookup_ainsert, if_pos rfl]
        simp
      · rw [alookup_ainsert, if_neg hk]
        constructor
        · rintro (h | h)
          · exact Or.inl h
          · exact Or.inr (List.mem_cons_of_mem _ h)
        · rintro (h | h)
          · exact Or.inl h
          · rcases List.mem_cons.mp h with h1 | h2
            · exact absurd h1.symm hk
            · exact Or.inr h2

theorem foldl_dedupStep_added_isSome (L : List Claims) (st : DedupState)
    (k : String) :
    (alookup (L.foldl dedupStep st).added k).isSome = true
      ↔ (alookup st.added k).isSome = true ∨ k ∈ L.map Claims.licenseID := by
  induction L generalizing st with
  | nil => simp
  | cons c cs ih =>
    rw [List.foldl_cons, ih, dedupStep_added, List.map_cons]
    by_cases hk : c.licenseID = k
    · subst hk
      rw [alookup_ainsert, if_pos rfl]
      simp
    · rw [alookup_ainsert, if_neg hk]
      constructor
      · rintro (h | h)
        · exact Or.inl h
        · exact Or.inr (List.mem_cons_of_mem _ h)
      · rintro (h | h)
        · exact Or.inl h
        · rcases List.mem_cons.mp h with h1 | h2
          · exact absurd h1.symm hk
          · exact Or.inr h2

theorem foldl_dedupStep_history_stable (L : List Claims) (st : DedupState)
    (hall : ∀ c ∈ L, (alookup st.history c.licenseID).isSome = true) :
    (L.foldl dedupStep st).history = st.history := by
  induction L generalizing st with
  | nil => rfl
  | cons c cs ih =>
    rw [List.foldl_cons]
    have hh : (dedupStep st c).history = st.history := by
      rw [dedupStep_history, if_pos (hall c (List.mem_cons_self c cs))]
    have := ih (dedupStep st c) (by
      rw [hh]
      exact fun x hx => hall x (List.mem_cons_of_mem _ hx))
    rw [this, hh]

theorem foldl_dedupStep_added_false (L : List Claims) (st : DedupState)
    (hall : ∀ c ∈ L, (alookup st.history c.licenseID).isSome = true) :
    ∀ kv ∈ (L.foldl dedupStep st).added, kv ∈ st.added ∨ kv.2 = false := by
  induction L generalizing st with
  | nil => exact fun kv h => Or.inl h
  | cons c cs ih =>
    rw [List.foldl_cons]
    have hknown := hall c (List.mem_cons_self c cs)
    have hh : (dedupStep st c).history = st.history := by
      rw [dedupStep_history, if_pos hknown]
    have ha : (dedupStep st c).added = ainsert st.added c.licenseID false := by
      rw [dedupStep_added, hknown]
      rfl
    intro kv hkv
    have := ih (dedupStep st c) (by
      rw [hh]
      exact fun x hx => hall x (List.mem_cons_of_mem _ hx)) kv hkv
    rcases this with h1 | h2
    · rw [ha] at h1
      unfold ainsert at h1
      rcases List.mem_cons.mp h1 with h3 | h4
      · exact Or.inr (by rw [h3])
      · exact Or.inl (List.mem_of_mem_filter h4)
    · exact Or.inr h2

theorem alookup_filter_added (hist : List (String × Claims))
    (added : List (String × Bool)) (k : String) :
    alookup (hist.filter (fun kv => (alookup added kv.1).isSome)) k
      = if (alookup added k).isSome then alookup hist k else none :=
  alookup_filter_key hist (fun s => (alookup added s).isSome) k

theorem sortAndDeduplicate_history_isSome (h0 : List (String × Claims))
    (cs : List Claims) (k : String) :
    (alookup (sortAndDeduplicate h0 cs).history k).isSome = true
      ↔ k ∈ (sortClaimsByIatDesc cs).map Claims.licenseID := by
  simp only [sortAndDeduplicate]
  rw [alookup_filter_added]
  have hadded := foldl_dedupStep_added_isSome (sortClaimsByIatDesc cs)
    { history := h0 } k
  have hhist := foldl_dedupStep_history_isSome (sortClaimsByIatDesc cs)
    { history := h0 } k
  simp only [alookup_nil, Option.isSome_none, Bool.false_eq_true, false_or] at hadded
  by_cases hmem : k ∈ (sortClaimsByIatDesc cs).map Claims.licenseID
  · rw [if_pos (hadded.mpr hmem)]
    simp [hhist, hmem]
  · rw [if_neg (fun h => hmem (hadded.mp h))]
    simp [hmem]

theorem sortAndDeduplicate_stable (h0 : List (String × Claims)) (cs : List Claims)
    (hall : ∀ c ∈ sortClaimsByIatDesc cs, (alookup h0 c.licenseID).isSome = true)
    (hkeysmem : ∀ kv ∈ h0, kv.1 ∈ (sortClaimsByIatDesc cs).map Claims.licenseID) :
    (sortAndDeduplicate h0 cs).newFired = [] ∧
    (sortAndDeduplicate h0 cs).removedFired = [] ∧
    (sortAndDeduplicate h0 cs).history = h0 := by
  simp only [sortAndDeduplicate]
  have hhist : ((sortClaimsByIatDesc cs).foldl dedupStep { history := h0 }).history
      = h0 := foldl_dedupStep_history_stable _ _ hall
  have haddedkeys : ∀ k, (alookup
      ((sortClaimsByIatDesc cs).foldl dedupStep { history := h0 }).added k).isSome
        = true ↔ k ∈ (sortClaimsByIatDesc cs).map Claims.licenseID := by
    intro k
    have h := foldl_dedupStep_added_isSome (sortClaimsByIatDesc cs)
      { history := h0 } k
    simp only [alookup_nil, Option.isSome_none, Bool.false_eq_true, false_or] at h
    exact h
  refine ⟨?_, ?_, ?_⟩
  · rw [List.map_eq_nil_iff, List.filter_eq_nil_iff]
    intro kv hkv
    rcases foldl_dedupStep_added_false _ _ hall kv hkv with h1 | h2
    · cases h1
    · simp [h2]
  · rw [List.map_eq_nil_iff, List.filter_eq_nil_iff, hhist]
    intro kv hkv
    have h2 := (haddedkeys kv.1).mpr (hkeysmem kv hkv)
    intro hnone
    rw [Option.isNone_iff_eq_none] at hnone
    rw [hnone] at h2
    simp at h2
  · rw [hhist, List.filter_eq_self]
    intro kv hkv
    exact (haddedkeys kv.1).mpr (hkeysmem kv hkv)

theorem rebuildSub_indep (globalSub : String) (h0 h1 : List (String × Claims))
    (scanned : List Claims) :
    rebuildSub globalSub h0 scanned = rebuildSub globalSub h1 scanned := by
  unfold rebuildSub rebuildClaimsList
  rw [sortAndDeduplicate_claims_eq h0, sortAndDeduplicate_claims_eq h1]

theorem runRebuild_activateHistory (globalSub : String) (scanned : List Claims)
    (st : CoordState) :
    (runRebuild globalSub scanned st).activateHistory
      = (sortAndDeduplicate st.activateHistory scanned).history := by
  simp only [runRebuild]
  split <;> rfl

theorem runRebuild_first_false (globalSub : String) (scanned : List Claims)
    (st : CoordState) : (runRebuild globalSub scanned st).first = false := by
  simp only [runRebuild]
  split
  · rename_i hcond
    simpa using hcond.1
  · rfl

theorem runRebuild_lastSub (globalSub : String) (scanned : List Claims)
    (st : CoordState) :
    (runRebuild globalSub scanned st).lastSub
      = rebuildSub globalSub st.activateHistory scanned := by
  simp only [runRebuild]
  split
  · rename_i hcond
    exact hcond.2.1.symm
  · rfl

/-- C4: a second run of the rebuild on an unchanged scan output (unchanged
license directory and key set) performs no new commit: the whole coordinator
state — committed claims, activate-history, lastSub, first flag and the
commit counter (one increment per update-channel closure) — is exactly what
the first run left, because the candidate sub equals the stored sub and no
OnNew / OnRemove hook fires. -/
theorem runRebuild_idempotent (globalSub : String) (scanned : List Claims)
    (st : CoordState) :
    runRebuild globalSub scanned (runRebuild globalSub scanned st)
      = runRebuild globalSub scanned st ∧
    (runRebuild globalSub scanned (runRebuild globalSub scanned st)).commits
      = (runRebuild globalSub scanned st).commits := by
  have hkeys : ∀ k,
      (alookup (runRebuild globalSub scanned st).activateHistory k).isSome = true
        ↔ k ∈ (sortClaimsByIatDesc scanned).map Claims.licenseID := by
    intro k
    rw [runRebuild_activateHistory]
    exact sortAndDeduplicate_history_isSome _ _ k
  have hall : ∀ c ∈ sortClaimsByIatDesc scanned,
      (alookup (runRebuild globalSub scanned st).activateHistory
        c.licenseID).isSome = true :=
    fun c hc => (hkeys _).mpr (List.mem_map_of_mem _ hc)
  have hkeysmem : ∀ kv ∈ (runRebuild globalSub scanned st).activateHistory,
      kv.1 ∈ (sortClaimsByIatDesc scanned).map Claims.licenseID :=
    fun kv hkv => (hkeys kv.1).mp (alookup_isSome_of_mem _ kv hkv)
  have hstable := sortAndDeduplicate_stable
    (runRebuild globalSub scanned st).activateHistory scanned hall hkeysmem
  have hmain : runRebuild globalSub scanned (runRebuild globalSub scanned st)
      = runRebuild globalSub scanned st := by
    conv_lhs => rw [runRebuild]
    rw [if_pos ?_]
    · rw [hstable.2.2]
    · refine ⟨?_, ?_, ?_⟩
      · rw [runRebuild_first_false]
        simp
      · rw [runRebuild_lastSub]
        exact rebuildSub_indep globalSub _ _ scanned
      · rw [hstable.1, hstable.2.1]
        simp
  exact ⟨hmain, by rw [hmain]⟩

end Kustomer
